import Mathlib

/-!
Shallow embedding of the conversational-assistant runtime's policy-ensemble
and domain subsystem (rasa/core/domain.py, rasa/core/policies/ensemble.py,
rasa/core/test.py), together with proofs of the specification's claims.

Probabilities and confidences are modelled as rationals; Python exceptions
are modelled with `Except`.  Python `dict`s appearing in the domain code are
modelled as association lists with unique keys kept in insertion order.
-/

/-- Lexicographic strictly-less comparison of character lists by code
point, modelling Python string comparison. -/
def charListLt : List Char → List Char → Bool
  | [], [] => false
  | [], _ :: _ => true
  | _ :: _, [] => false
  | c :: cs, d :: ds =>
    c.toNat < d.toNat || (c.toNat = d.toNat && charListLt cs ds)

/-- Strictly-less comparison of strings by code point. -/
def strLt (a b : String) : Bool :=
  charListLt a.data b.data

/-- Insertion of a string into a list, placed before the first element it is
not greater than.  Used to model Python's `sorted` on string lists. -/
def insertSorted (x : String) : List String → List String
  | [] => [x]
  | y :: ys => if strLt y x then y :: insertSorted x ys else x :: y :: ys

/-- Model of Python `sorted` on a list of strings (insertion sort). -/
def sortStr (l : List String) : List String :=
  l.foldr insertSorted []

/-- Model of Python `sorted(list(set(l)))`: distinct elements in sorted order. -/
def sortedDedup (l : List String) : List String :=
  sortStr l.dedup

/-- Keys of an association list (models Python `dict.keys()`). -/
def keysOf {α : Type} (d : List (String × α)) : List String :=
  d.map Prod.fst

/-- Model of Python `a.update(b)` on dicts represented as association lists:
values of keys present in `b` replace those of `a`, keys of `b` not in `a`
are appended in order. -/
def dictUpdate {α : Type} (a b : List (String × α)) : List (String × α) :=
  a.map (fun kv => (kv.1, (b.lookup kv.1).getD kv.2))
    ++ b.filter (fun kv => decide (kv.1 ∉ keysOf a))

/-- Embedding of `merge_dicts` from `Domain.merge`: with
`override_existing_values` the pair `(a, b) = (d1, d2)`, otherwise
`(a, b) = (d2, d1)`; then `a.update(b)`. -/
def mergeDicts {α : Type} (d1 d2 : List (String × α)) (overrideExisting : Bool) :
    List (String × α) :=
  if overrideExisting then dictUpdate d1 d2 else dictUpdate d2 d1

/-- Embedding of `merge_lists` from `Domain.merge`:
`sorted(list(set(l1 + l2)))`. -/
def mergeLists (l1 l2 : List String) : List String :=
  sortedDedup (l1 ++ l2)

/-- Session configuration (`SessionConfig` named tuple): expiration time in
minutes and the carry-over-slots flag. -/
structure SessionConfig where
  sessionExpirationTime : ℚ
  carryOverSlots : Bool
deriving DecidableEq, Repr

/-- Embedding of `SessionConfig.default()`.  The carry-over default constant
lives outside the embedded sources; modelled as `true`. -/
def SessionConfig.default : SessionConfig :=
  ⟨0, true⟩

/-- A typed slot as stored on the domain: its name and the width of its
feature vector (`feature_dimensionality`); other slot internals are not
needed by the embedded operations. -/
structure Slot where
  name : String
  featureDim : ℕ
deriving DecidableEq, Repr

/-- Persisted form of a slot (`slot.persistence_info()`), keyed by slot name
in `as_dict`; carries what is needed to rebuild the slot. -/
structure SlotP where
  featureDim : ℕ
deriving DecidableEq, Repr

/-- A validated utterance-template variation: a dict carrying a `text` or a
`custom` payload. -/
structure TVar where
  text : Option String
  custom : Option String
deriving DecidableEq, Repr

/-- A raw (unvalidated) template variation as it appears in input data:
either a bare string or a dict. -/
inductive TRaw where
  | rawStr (s : String)
  | rawDict (v : TVar)
deriving DecidableEq, Repr

/-- A raw `use_entities` value before normalization: `True`, `False`,
`None`, or an explicit list. -/
inductive UseEntVal where
  | uTrue
  | uFalse
  | uNone
  | uList (l : List String)
deriving DecidableEq, Repr

/-- Normalized `use_entities`: either all entities or an explicit list
(`False`/`None` normalize to the empty list). -/
inductive NUse where
  | all
  | lst (l : List String)
deriving DecidableEq, Repr

/-- Normalized per-intent properties as stored in `intent_properties`. -/
structure NProps where
  useEntities : NUse
  ignoreEntities : List String
  triggers : Option String
deriving DecidableEq, Repr

/-- Raw per-intent properties as they appear in a domain file: every field
optional (`setdefault` fills the missing ones). -/
structure RawProps where
  useEntities : Option UseEntVal
  ignoreEntities : Option (List String)
  triggers : Option String
deriving DecidableEq, Repr

/-- An intent declaration in the `intents` input list: either a bare name or
a name with a properties dict. -/
inductive IntentDecl where
  | nameOnly (name : String)
  | withProps (name : String) (props : RawProps)
deriving DecidableEq, Repr

/-- Name of an intent declaration. -/
def IntentDecl.name : IntentDecl → String
  | .nameOnly n => n
  | .withProps n _ => n

/-- Errors raised by the domain subsystem.  `invalidDomain` carries the
`InvalidDomain` message; `domainSpecChanged` is the `InvalidDomain` raised by
`compare_with_specification`, carrying the removed and added state names that
are interpolated into its message. -/
inductive DomErr where
  | invalidDomain (message : String)
  | domainSpecChanged (removedStates : List String) (addedStates : List String)
deriving DecidableEq, Repr

/-- Normalization performed by `collect_intent_properties` on one raw
properties dict: `setdefault("use_entities", True)`,
`setdefault("ignore_entities", [])`, and `None`/`False` `use_entities`
becoming the empty list. -/
def normalizeRaw (r : RawProps) : NProps :=
  { useEntities :=
      match r.useEntities.getD .uTrue with
      | .uTrue => .all
      | .uFalse => .lst []
      | .uNone => .lst []
      | .uList l => .lst l,
    ignoreEntities := r.ignoreEntities.getD [],
    triggers := r.triggers }

/-- Worker for `collect_intent_properties`: processes declarations in order,
raising `InvalidDomain` when an intent name repeats. -/
def collectIntentGo : List IntentDecl → List (String × NProps) →
    Except DomErr (List (String × NProps))
  | [], acc => .ok acc
  | d :: ds, acc =>
    let entry : String × NProps :=
      match d with
      | .nameOnly n => (n, ⟨.all, [], none⟩)
      | .withProps n r => (n, normalizeRaw r)
    if entry.1 ∈ keysOf acc then
      .error (.invalidDomain
        ("Intents are not unique! Found two intents with name '" ++ entry.1
          ++ "'. Either rename or remove one of them."))
    else
      collectIntentGo ds (acc ++ [entry])

/-- Embedding of `Domain.collect_intent_properties`. -/
def collectIntentProperties (intents : List IntentDecl) :
    Except DomErr (List (String × NProps)) :=
  collectIntentGo intents []

/-- Validation of the variation list of one template key, per
`collect_templates`: bare strings are wrapped into `{"text": s}` (with a
deprecation warning), dicts must carry `text` or `custom`. -/
def validateVariations (key : String) : List TRaw → Except DomErr (List TVar)
  | [] => .ok []
  | .rawStr s :: r =>
    match validateVariations key r with
    | .error e => .error e
    | .ok vs => .ok (⟨some s, none⟩ :: vs)
  | .rawDict v :: r =>
    if v.text.isNone && v.custom.isNone then
      .error (.invalidDomain
        ("Utter template '" ++ key ++ "' needs to contain either "
          ++ "'- text: ' or '- custom: ' attribute to be a proper template."))
    else
      match validateVariations key r with
      | .error e => .error e
      | .ok vs => .ok (v :: vs)

/-- Embedding of `Domain.collect_templates`: a `None` variation list raises
`InvalidDomain`, otherwise every variation is validated. -/
def collectTemplates : List (String × Option (List TRaw)) →
    Except DomErr (List (String × List TVar))
  | [] => .ok []
  | (k, none) :: _ =>
    .error (.invalidDomain
      ("Utterance '" ++ k ++ "' does not have any defined templates."))
  | (k, some vars) :: rest =>
    match validateVariations k vars with
    | .error e => .error e
    | .ok vs =>
      match collectTemplates rest with
      | .error e => .error e
      | .ok ts => .ok ((k, vs) :: ts)

/-- Insertion sort step on associations keyed by slot name. -/
def insertSlotSorted (x : String × SlotP) :
    List (String × SlotP) → List (String × SlotP)
  | [] => [x]
  | y :: ys => if strLt y.1 x.1 then y :: insertSlotSorted x ys else x :: y :: ys

/-- Embedding of `Domain.collect_slots`: slots are rebuilt from the
persisted dict sorted by slot name. -/
def collectSlots (sd : List (String × SlotP)) : List Slot :=
  (sd.foldr insertSlotSorted []).map (fun kv => ⟨kv.1, kv.2.featureDim⟩)

/-- Modelled from the spec: the fixed default action names ("e.g. listen,
restart, back, default-fallback").  `rasa/core/actions/action.py` is not part
of the embedded sources. -/
def defaultActionNames : List String :=
  ["action_listen", "action_restart", "action_default_fallback", "action_back"]

/-- Modelled from the spec: `action.combine_with_templates` — user actions
are the declared action names followed by the utterance-template names not
already listed (`rasa/core/actions/action.py` is not part of the embedded
sources; the spec states `user_actions` "only includes custom actions and
utterance actions"). -/
def combineWithTemplates (actionNames : List String)
    (templates : List (String × List TVar)) : List String :=
  actionNames ++ (sortStr (keysOf templates)).filter
    (fun a => decide (a ∉ actionNames))

/-- Modelled from the spec: `action.combine_user_with_default_actions` — the
fixed default actions (minus those overridden by the user) followed by the
user actions, so that `action_names` covers "custom, utterance, default
actions and forms". -/
def combineUserWithDefaultActions (userActions : List String) : List String :=
  defaultActionNames.filter (fun a => decide (a ∉ userActions)) ++ userActions

/-- The domain: the universe in which the bot's policy acts.  Fields are the
attributes stored by `Domain.__init__`: normalized intent properties,
entities, forms, slots, validated templates, session configuration, the
computed `user_actions` and `action_names` lists, and the
`store_entities_as_slots` flag. -/
structure Domain where
  intentProperties : List (String × NProps)
  entities : List String
  formNames : List String
  slots : List Slot
  templates : List (String × List TVar)
  sessionConfig : SessionConfig
  userActions : List String
  actionNames : List String
  storeEntitiesAsSlots : Bool
deriving DecidableEq, Repr

/-- Duplicated items of a list, per `_check_domain_sanity.get_duplicates`:
the distinct items occurring more than once. -/
def getDuplicates (l : List String) : List String :=
  l.dedup.filter (fun x => decide (1 < l.count x))

/-- Intent-trigger mappings whose target is not a known action, per
`_check_domain_sanity.check_mappings`. -/
def checkMappings (d : Domain) : List (String × String) :=
  d.intentProperties.filterMap (fun kv =>
    match kv.2.triggers with
    | some t => if t ∈ d.actionNames then none else some (kv.1, t)
    | none => none)

/-- Embedding of `Domain._check_domain_sanity`: raises `InvalidDomain` when
action names, slot names or entities repeat, or an intent triggers an
unknown action. -/
def checkDomainSanity (d : Domain) : Except DomErr Unit :=
  let duplicateActions := getDuplicates d.actionNames
  let duplicateSlots := getDuplicates (d.slots.map Slot.name)
  let duplicateEntities := getDuplicates d.entities
  let incorrectMappings := checkMappings d
  if duplicateActions ≠ [] ∨ duplicateSlots ≠ [] ∨ duplicateEntities ≠ []
      ∨ incorrectMappings ≠ [] then
    .error (.invalidDomain
      ("Duplicates or incorrect mappings in domain: actions '"
        ++ String.intercalate ", " duplicateActions
        ++ "', slots '" ++ String.intercalate ", " duplicateSlots
        ++ "', entities '" ++ String.intercalate ", " duplicateEntities ++ "'"))
  else
    .ok ()

/-- Embedding of `Domain.__init__`: collects intent properties, computes
`user_actions = combine_with_templates(action_names, templates)` and
`action_names = combine_user_with_default_actions(user_actions) + form_names`,
then runs the domain sanity check. -/
def Domain.init (intents : List IntentDecl) (entities : List String)
    (slots : List Slot) (templates : List (String × List TVar))
    (actionNames : List String) (formNames : List String)
    (storeEntitiesAsSlots : Bool := true)
    (sessionConfig : SessionConfig := SessionConfig.default) :
    Except DomErr Domain :=
  match collectIntentProperties intents with
  | .error e => .error e
  | .ok props =>
    let ua := combineWithTemplates actionNames templates
    let d : Domain :=
      { intentProperties := props
        entities := entities
        formNames := formNames
        slots := slots
        templates := templates
        sessionConfig := sessionConfig
        userActions := ua
        actionNames := combineUserWithDefaultActions ua ++ formNames
        storeEntitiesAsSlots := storeEntitiesAsSlots }
    match checkDomainSanity d with
    | .error e => .error e
    | .ok _ => .ok d

/-- Embedding of the lazy `Domain.intents` property:
`sorted(self.intent_properties.keys())`. -/
def Domain.intents (d : Domain) : List String :=
  sortStr (keysOf d.intentProperties)

/-- Embedding of `Domain.intent_states`. -/
def Domain.intentStates (d : Domain) : List String :=
  d.intents.map (fun i => "intent_" ++ i)

/-- Embedding of `Domain.entity_states`. -/
def Domain.entityStates (d : Domain) : List String :=
  d.entities.map (fun e => "entity_" ++ e)

/-- Embedding of `Domain.slot_states`: one state per feature dimension per
slot. -/
def Domain.slotStates (d : Domain) : List String :=
  d.slots.flatMap (fun s =>
    (List.range s.featureDim).map
      (fun i => "slot_" ++ s.name ++ "_" ++ toString i))

/-- Embedding of `Domain.prev_action_states`. -/
def Domain.prevActionStates (d : Domain) : List String :=
  d.actionNames.map (fun a => "prev_" ++ a)

/-- Embedding of `Domain.form_states`. -/
def Domain.formStates (d : Domain) : List String :=
  d.formNames.map (fun f => "active_form_" ++ f)

/-- Embedding of `Domain.input_states`: intent, entity, slot, previous-action
and form states in that order. -/
def Domain.inputStates (d : Domain) : List String :=
  d.intentStates ++ d.entityStates ++ d.slotStates
    ++ d.prevActionStates ++ d.formStates

/-- Embedding of `Domain.num_states`: `len(self.input_states)`. -/
def Domain.numStates (d : Domain) : ℕ :=
  d.inputStates.length

/-- Embedding of `Domain.input_state_map` followed by `.get`: the dict
`{f: i for i, f in enumerate(self.input_states)}` maps each state name to
its position, a later duplicate overwriting an earlier one; looking up a
missing name yields `None`. -/
def Domain.indexOfState (d : Domain) (stateName : String) : Option ℕ :=
  ((List.range d.inputStates.length).filter
      (fun i => decide (d.inputStates.get? i = some stateName))).getLast?

/-- Embedding of `Domain.index_for_action`: first index of the action name in
`action_names`; raises `NameError` when the name is unknown. -/
def Domain.indexForAction (d : Domain) (actionName : String) :
    Except String ℕ :=
  match d.actionNames.indexOf? actionName with
  | some i => .ok i
  | none => .error ("NameError: Cannot access action '" ++ actionName
      ++ "', as that name is not a registered action for this domain.")

/-- Embedding of `Domain.num_actions`: `len(self.action_names)`. -/
def Domain.numActions (d : Domain) : ℕ :=
  d.actionNames.length

/-- The dict produced by `Domain.as_dict`, as a structure: the `config`
entry holds `store_entities_as_slots`, `actions` holds the user actions,
`responses` the templates, `slots` the persisted slot infos keyed by name. -/
structure DomainDict where
  storeEntitiesAsSlots : Bool
  sessionConfig : SessionConfig
  intents : List (String × NProps)
  entities : List String
  slots : List (String × SlotP)
  responses : List (String × List TVar)
  actions : List String
  forms : List String
deriving DecidableEq, Repr

/-- Embedding of `Domain.as_dict`. -/
def Domain.asDict (d : Domain) : DomainDict :=
  { storeEntitiesAsSlots := d.storeEntitiesAsSlots
    sessionConfig := d.sessionConfig
    intents := d.intentProperties
    entities := d.entities
    slots := d.slots.map (fun s => (s.name, ⟨s.featureDim⟩))
    responses := d.templates
    actions := d.userActions
    forms := d.formNames }

/-- Raw properties equivalent to normalized ones, used when `as_dict` output
is fed back through `from_dict` (normalization is the identity on them). -/
def rawOfProps (p : NProps) : RawProps :=
  { useEntities :=
      some (match p.useEntities with
            | .all => .uTrue
            | .lst l => .uList l),
    ignoreEntities := some p.ignoreEntities,
    triggers := p.triggers }

/-- Embedding of `Domain.from_dict`: validates the response templates via
`collect_templates`, rebuilds the slots via `collect_slots`, and calls the
constructor with the dict's fields. -/
def Domain.fromDict (data : DomainDict) : Except DomErr Domain :=
  match collectTemplates
      (data.responses.map (fun kv => (kv.1, some (kv.2.map TRaw.rawDict)))) with
  | .error e => .error e
  | .ok templates =>
    Domain.init
      (data.intents.map (fun kv => IntentDecl.withProps kv.1 (rawOfProps kv.2)))
      data.entities (collectSlots data.slots) templates
      data.actions data.forms data.storeEntitiesAsSlots data.sessionConfig

/-- The `Domain.merge` step that removes the merging domain's existing forms
from the other domain's action list (`domain_dict["actions"].remove(form)`
removes the first occurrence). -/
def removeFormsFromActions (forms actions : List String) : List String :=
  forms.foldl (fun acts f => if f ∈ acts then acts.erase f else acts) actions

/-- Embedding of `Domain.merge`: a missing other domain returns `self`;
otherwise both domains are turned into dicts, single-valued config fields
are taken according to `override`, intents and the dict-valued fields are
merged with `merge_dicts`, the set-like fields with `merge_lists` (after the
form-removal step), and the combined dict is rebuilt with `from_dict`. -/
def Domain.merge (self : Domain) (domain : Option Domain)
    (overrideOther : Bool := false) : Except DomErr Domain :=
  match domain with
  | none => .ok self
  | some dm =>
    let domainDict := dm.asDict
    let combined := self.asDict
    let combined :=
      if overrideOther then
        { combined with storeEntitiesAsSlots := domainDict.storeEntitiesAsSlots }
      else combined
    let combined :=
      if overrideOther || self.sessionConfig = SessionConfig.default then
        { combined with sessionConfig := domainDict.sessionConfig }
      else combined
    let domainActions := removeFormsFromActions combined.forms domainDict.actions
    let combined :=
      { combined with
        intents := mergeDicts combined.intents domainDict.intents overrideOther
        entities := mergeLists combined.entities domainDict.entities
        actions := mergeLists combined.actions domainActions
        forms := mergeLists combined.forms domainDict.forms
        responses := mergeDicts combined.responses domainDict.responses overrideOther
        slots := mergeDicts combined.slots domainDict.slots overrideOther }
    Domain.fromDict combined

/-- Embedding of `Domain.compare_with_specification`, with the loaded
specification's state list passed directly: raises the
domain-specification-changed `InvalidDomain` (carrying the removed and added
state names) when the two state lists differ as sets, otherwise returns
`True`. -/
def Domain.compareWithSpecification (d : Domain) (states : List String) :
    Except DomErr Bool :=
  if states.all (fun s => decide (s ∈ d.inputStates))
      && d.inputStates.all (fun s => decide (s ∈ states)) then
    .ok true
  else
    .error (.domainSpecChanged
      (states.dedup.filter (fun s => decide (s ∉ d.inputStates)))
      (d.inputStates.dedup.filter (fun s => decide (s ∉ states))))

/-- Name of the listen action (`ACTION_LISTEN_NAME`); the constants module
is not part of the embedded sources, the name is fixed by the spec's default
actions. -/
def actionListenName : String := "action_listen"

/-- Tracker events, as far as the ensemble inspects them: it only checks
whether the last event is an `ActionExecutionRejected` and reads its
`action_name`. -/
inductive Event where
  | actionExecuted (actionName : String)
  | actionExecutionRejected (actionName : String)
  | userUttered
deriving DecidableEq, Repr

/-- Modelled from the spec: the tracker is an external collaborator
(`rasa/core/trackers.py` is not part of the embedded sources), an append-only
event log together with the derived name of the most recently executed
action. -/
structure Tracker where
  events : List Event
  latestActionName : Option String
deriving DecidableEq, Repr

/-- Modelled from the spec: the policy contract — a predictor with a
probability-distribution output over the domain's actions and a static
integer priority (`rasa/core/policies/policy.py` is not part of the embedded
sources).  `className` is the Python class name used in the
`policy_<index>_<ClassName>` identifier; `isFallback` models
`isinstance(p, FallbackPolicy)`; `fallbackActionName` is the fallback
policy's designated fallback action. -/
structure Policy where
  className : String
  priority : ℤ
  predict : Tracker → Domain → List ℚ
  isFallback : Bool
  fallbackActionName : String

/-- The `policy_{i}_{type(p).__name__}` identifier string. -/
def policyIdentifier (i : ℕ) (p : Policy) : String :=
  "policy_" ++ toString i ++ "_" ++ p.className

/-- Embedding of `SimplePolicyEnsemble.is_not_memo_policy`: the identifier
does not end in `_MemoizationPolicy` or `_AugmentedMemoizationPolicy`. -/
def isNotMemoPolicy (bestPolicyName : String) : Bool :=
  let isMemo := ("_MemoizationPolicy".data).isSuffixOf bestPolicyName.data
  let isAugmented := ("_AugmentedMemoizationPolicy".data).isSuffixOf bestPolicyName.data
  !(isMemo || isAugmented)

/-- Modelled from the spec: `FallbackPolicy.fallback_scores` — the fixed
distribution concentrated on the designated fallback action
(`rasa/core/policies/fallback.py` is not part of the embedded sources). -/
def fallbackScores (p : Policy) (d : Domain) : Except String (List ℚ) :=
  match d.indexForAction p.fallbackActionName with
  | .error e => .error e
  | .ok idx => .ok (((List.replicate d.numActions (0 : ℚ))).set idx 1)

/-- Embedding of the rejected-action zeroing step of
`probabilities_using_best_policy`: when the last tracker event is an
`ActionExecutionRejected`, the entry of the rejected action's index is set
to `0.0` (an out-of-range index is a Python `IndexError`). -/
def zeroRejected (tracker : Tracker) (d : Domain) (probabilities : List ℚ) :
    Except String (List ℚ) :=
  match tracker.events.getLast? with
  | some (.actionExecutionRejected name) =>
    match d.indexForAction name with
    | .error e => .error e
    | .ok idx =>
      if idx < probabilities.length then .ok (probabilities.set idx 0)
      else .error "IndexError: list assignment index out of range"
  | _ => .ok probabilities

/-- Embedding of `np.max` on a probability list: the maximum of a nonempty
list, an error (as in NumPy) on an empty one. -/
def listMaxE : List ℚ → Except String ℚ
  | [] => .error "ValueError: max of an empty sequence"
  | x :: xs => .ok (xs.foldl max x)

/-- Embedding of Python `list.index(v)`: the first index holding `v`, a
`ValueError` when absent. -/
def listIndexE (l : List ℚ) (v : ℚ) : Except String ℕ :=
  match l.indexOf? v with
  | some i => .ok i
  | none => .error "ValueError: value is not in list"

/-- Python tuple comparison `(a1, a2) > (b1, b2)` on (confidence, priority)
pairs: lexicographic, strict. -/
def tupleGt (a b : ℚ × ℤ) : Prop :=
  b.1 < a.1 ∨ (a.1 = b.1 ∧ b.2 < a.2)

instance : DecidablePred (fun ab : (ℚ × ℤ) × (ℚ × ℤ) => tupleGt ab.1 ab.2) :=
  fun _ => by unfold tupleGt; infer_instance

instance (a b : ℚ × ℤ) : Decidable (tupleGt a b) := by
  unfold tupleGt; infer_instance

/-- Running state of the arbitration loop: `best` couples `result` with
`best_policy_name` (the source sets them together, both start as `None`);
`max_confidence` and `best_policy_priority` start at `-1`. -/
structure SelState where
  best : Option (List ℚ × String)
  maxConfidence : ℚ
  bestPolicyPriority : ℤ
deriving DecidableEq, Repr

/-- Initial arbitration state. -/
def initialSelState : SelState :=
  ⟨none, -1, -1⟩

/-- The policy-confidence/priority key the arbitration loop compares, with
the rejected-action zeroing applied: `(np.max(probabilities), p.priority)`. -/
def policyKey (tracker : Tracker) (d : Domain) (p : Policy) :
    Except String (ℚ × ℤ) :=
  match zeroRejected tracker d (p.predict tracker d) with
  | .error e => .error e
  | .ok probs =>
    match listMaxE probs with
    | .error e => .error e
    | .ok c => .ok (c, p.priority)

/-- The arbitration loop of `probabilities_using_best_policy`
(`for i, p in enumerate(self.policies)`), with `i` the index of the head
policy: each policy's distribution has the rejected action zeroed, and the
running best is replaced exactly when `(confidence, p.priority)` is
strictly greater than `(max_confidence, best_policy_priority)`. -/
def selectGo (tracker : Tracker) (d : Domain) :
    ℕ → List Policy → SelState → Except String SelState
  | _, [], st => .ok st
  | i, p :: ps, st =>
    match zeroRejected tracker d (p.predict tracker d) with
    | .error e => .error e
    | .ok probabilities =>
      match listMaxE probabilities with
      | .error e => .error e
      | .ok confidence =>
        let st' :=
          if tupleGt (confidence, p.priority) (st.maxConfidence, st.bestPolicyPriority)
          then SelState.mk (some (probabilities, policyIdentifier i p))
            confidence p.priority
          else st
        selectGo tracker d (i + 1) ps st'

/-- The arbitration phase over all policies, from the initial state. -/
def selectBest (policies : List Policy) (tracker : Tracker) (d : Domain) :
    Except String SelState :=
  selectGo tracker d 0 policies initialSelState

/-- Embedding of `SimplePolicyEnsemble.probabilities_using_best_policy`:
after the arbitration loop, if a result exists, the predicted action (first
index of the maximal confidence in the winning distribution) is the listen
action, the tracker's latest action is the listen action, and the winning
policy is not a memoization-family policy, then the first `FallbackPolicy`
in the list (if any) supplies the returned distribution and identifier. -/
def probabilitiesUsingBestPolicy (policies : List Policy) (tracker : Tracker)
    (d : Domain) : Except String (Option (List ℚ) × Option String) :=
  match selectBest policies tracker d with
  | .error e => .error e
  | .ok st =>
    match st.best with
    | none => .ok (none, none)
    | some (result, bestPolicyName) =>
      match listIndexE result st.maxConfidence with
      | .error e => .error e
      | .ok predictedIdx =>
        match d.indexForAction actionListenName with
        | .error e => .error e
        | .ok listenIdx =>
          if predictedIdx = listenIdx
              && tracker.latestActionName == some actionListenName
              && isNotMemoPolicy bestPolicyName then
            match (policies.enum.filter (fun ip => ip.2.isFallback)) with
            | [] => .ok (some result, some bestPolicyName)
            | (fallbackIdx, fallbackPolicy) :: _ =>
              match fallbackScores fallbackPolicy d with
              | .error e => .error e
              | .ok newResult =>
                .ok (some newResult,
                  some (policyIdentifier fallbackIdx fallbackPolicy))
          else
            .ok (some result, some bestPolicyName)

/-- Numeric version comparison on equal-length components (padded with
zeros): strictly-less, lexicographic. -/
def versionLtAux : List ℕ → List ℕ → Bool
  | [], _ => false
  | _ :: _, [] => false
  | a :: as, b :: bs => a < b || (a == b && versionLtAux as bs)

/-- Modelled from the spec: `packaging.version.parse` comparison for
release versions — components compared numerically, shorter versions padded
with zeros (the `packaging` library is not part of the embedded sources). -/
def versionLt (a b : List ℕ) : Bool :=
  let n := max a.length b.length
  versionLtAux (a ++ List.replicate (n - a.length) 0)
    (b ++ List.replicate (n - b.length) 0)

/-- Splitting a character list at dots, accumulating the current (reversed)
component. -/
def splitDotsAux : List Char → List Char → List String
  | cur, [] => [String.mk cur.reverse]
  | cur, c :: cs =>
    if c = '.' then String.mk cur.reverse :: splitDotsAux [] cs
    else splitDotsAux (c :: cur) cs

/-- Numeric value of one version component; a non-numeric component counts
as zero. -/
def versionComponent (t : String) : ℕ :=
  if t.data ≠ [] && t.data.all Char.isDigit then
    t.data.foldl (fun n c => 10 * n + (c.toNat - 48)) 0
  else 0

/-- Modelled from the spec: parsing a dotted version string into numeric
components. -/
def parseVersion (s : String) : List ℕ :=
  (splitDotsAux [] s.data).map versionComponent

/-- Payload of `UnsupportedDialogueModelError` as raised by
`ensure_model_compatibility`: the message carries the found model version
and the minimal compatible version. -/
structure ModelVersionError where
  modelVersion : String
  minimumVersion : String
deriving DecidableEq, Repr

/-- Embedding of `PolicyEnsemble.ensure_model_compatibility`: the metadata's
recorded `rasa` version (defaulting to `"0.0.0"` when absent) is compared
against the version to check; a strictly smaller model version raises
`UnsupportedDialogueModelError`. -/
def ensureModelCompatibility (metadataRasa : Option String)
    (versionToCheck : String) : Except ModelVersionError Unit :=
  let modelVersion := metadataRasa.getD "0.0.0"
  if versionLt (parseVersion modelVersion) (parseVersion versionToCheck) then
    .error ⟨modelVersion, versionToCheck⟩
  else
    .ok ()

/-- An extracted entity dict as stored in the evaluation store: the message
text it came from, the entity type and the extracted value. -/
structure EntityD where
  text : Option String
  entity : String
  value : String
deriving DecidableEq, Repr

/-- Modelled from the spec: `MarkdownWriter.generate_entity_md(text, entity)`
renders an entity as inline markdown (`rasa/nlu/training_data/formats/
markdown.py` is not part of the embedded sources). -/
def generateEntityMd (text : Option String) (e : EntityD) : String :=
  "[" ++ text.getD "" ++ "](" ++ e.entity ++ ")"

/-- Embedding of `EvaluationStore`: the six parallel sequences of action,
intent and entity predictions and targets. -/
structure EvaluationStore where
  actionPredictions : List String
  actionTargets : List String
  intentPredictions : List String
  intentTargets : List String
  entityPredictions : List EntityD
  entityTargets : List EntityD
deriving DecidableEq, Repr

/-- Embedding of `EvaluationStore.__init__` with no arguments. -/
def EvaluationStore.empty : EvaluationStore :=
  ⟨[], [], [], [], [], []⟩

/-- Embedding of `EvaluationStore.add_to_store`: each supplied list is
appended to the corresponding store sequence (a missing or empty argument
leaves the sequence unchanged). -/
def EvaluationStore.addToStore (s : EvaluationStore)
    (actionPredictions : Option (List String) := none)
    (actionTargets : Option (List String) := none)
    (intentPredictions : Option (List String) := none)
    (intentTargets : Option (List String) := none)
    (entityPredictions : Option (List EntityD) := none)
    (entityTargets : Option (List EntityD) := none) : EvaluationStore :=
  { actionPredictions := s.actionPredictions ++ actionPredictions.getD []
    actionTargets := s.actionTargets ++ actionTargets.getD []
    intentPredictions := s.intentPredictions ++ intentPredictions.getD []
    intentTargets := s.intentTargets ++ intentTargets.getD []
    entityPredictions := s.entityPredictions ++ entityPredictions.getD []
    entityTargets := s.entityTargets ++ entityTargets.getD [] }

/-- Embedding of `EvaluationStore.merge_store`: adds the contents of the
other store. -/
def EvaluationStore.mergeStore (s other : EvaluationStore) : EvaluationStore :=
  s.addToStore (some other.actionPredictions) (some other.actionTargets)
    (some other.intentPredictions) (some other.intentTargets)
    (some other.entityPredictions) (some other.entityTargets)

/-- Modelled from the spec: `rasa.core.utils.pad_lists_to_size` — the
shorter list is padded with the padding value until both lists have the same
length (`rasa/core/utils.py` is not part of the embedded sources). -/
def padListsToSize (a b : List String) (paddingValue : String) :
    List String × List String :=
  if b.length ≤ a.length then
    (a, b ++ List.replicate (a.length - b.length) paddingValue)
  else
    (a ++ List.replicate (b.length - a.length) paddingValue, b)

/-- The concatenated target sequence built by `EvaluationStore.serialise`:
action targets, intent targets, and markdown-rendered entity targets. -/
def EvaluationStore.serialiseTargets (s : EvaluationStore) : List String :=
  s.actionTargets ++ s.intentTargets
    ++ s.entityTargets.map (fun gold => generateEntityMd gold.text gold)

/-- The concatenated prediction sequence built by
`EvaluationStore.serialise`. -/
def EvaluationStore.serialisePredictions (s : EvaluationStore) : List String :=
  s.actionPredictions ++ s.intentPredictions
    ++ s.entityPredictions.map (fun predicted => generateEntityMd predicted.text predicted)

/-- Embedding of `EvaluationStore.serialise`: targets and predictions padded
to equal size with the sentinel value `"None"`. -/
def EvaluationStore.serialise (s : EvaluationStore) :
    List String × List String :=
  padListsToSize s.serialiseTargets s.serialisePredictions "None"

/-- An extracted entity as it appears on a parsed user message; only the
presence and value of the `"entity"` key matter to featurization. -/
structure MsgEntity where
  entity : Option String
deriving DecidableEq, Repr

/-- The latest user message as read by `_get_featurized_entities`: the
parsed intent name and the extracted entities. -/
structure UserMessage where
  intentName : Option String
  entities : List MsgEntity
deriving DecidableEq, Repr

/-- Embedding of `Domain.intent_config`:
`self.intent_properties.get(intent_name, {})`; a missing intent (or a
missing intent name) yields the empty dict, modelled as `none` with its
defaults applied at the use sites. -/
def Domain.intentConfig (d : Domain) (intentName : Option String) :
    Option NProps :=
  intentName.bind (fun n => d.intentProperties.lookup n)

/-- Embedding of `Domain._get_featurized_entities`: wanted entities are the
explicitly included ones (or all recognized ones when inclusion is `True`)
minus the explicitly ignored ones; an entity both explicitly included and
excluded triggers a warning (the returned flag models the `raise_warning`
call) and exclusion wins.  Returns the recognized entity names intersected
with the wanted ones. -/
def Domain.getFeaturizedEntities (d : Domain) (latestMessage : UserMessage) :
    List String × Bool :=
  let intentConf := d.intentConfig latestMessage.intentName
  let entityNames := (latestMessage.entities.filterMap MsgEntity.entity).dedup
  let includeVal := match intentConf with
    | some c => c.useEntities
    | none => NUse.all
  let includedEntities := match includeVal with
    | .all => entityNames
    | .lst l => l.dedup
  let excludedEntities :=
    (match intentConf with
     | some c => c.ignoreEntities
     | none => []).dedup
  let wantedEntities :=
    includedEntities.filter (fun x => decide (x ∉ excludedEntities))
  let explicitlyIncluded := match includeVal with
    | .all => false
    | .lst _ => true
  let ambiguousEntities :=
    includedEntities.filter (fun x => decide (x ∈ excludedEntities))
  let warned := explicitlyIncluded && !ambiguousEntities.isEmpty
  (entityNames.filter (fun x => decide (x ∈ wantedEntities)), warned)

/-- A small concrete domain used to exercise the state-schema theorems: one
intent, one entity, one featurized slot, one custom action. -/
def domainEx : Domain :=
  { intentProperties := [("greet", ⟨.all, [], none⟩)]
    entities := ["city"]
    formNames := []
    slots := [⟨"name", 1⟩]
    templates := []
    sessionConfig := SessionConfig.default
    userActions := ["action_hello"]
    actionNames := combineUserWithDefaultActions ["action_hello"] ++ []
    storeEntitiesAsSlots := true }

/-- Concrete intent properties with an entity both included and ignored. -/
def propsC6Ex : NProps :=
  ⟨.lst ["food", "drink"], ["drink"], none⟩

/-- Concrete domain whose `order` intent both includes and ignores the
`drink` entity. -/
def domainC6Ex : Domain :=
  { intentProperties := [("order", propsC6Ex)]
    entities := ["food", "drink"]
    formNames := []
    slots := []
    templates := []
    sessionConfig := SessionConfig.default
    userActions := []
    actionNames := combineUserWithDefaultActions [] ++ []
    storeEntitiesAsSlots := true }

/-- Concrete user message for the `order` intent carrying both entities. -/
def msgC6Ex : UserMessage :=
  ⟨some "order", [⟨some "food"⟩, ⟨some "drink"⟩]⟩

/-- Concrete domain for the ensemble theorems: just the default actions
(listen at index 0, default fallback at index 2). -/
def domainEnsEx : Domain :=
  { intentProperties := []
    entities := []
    formNames := []
    slots := []
    templates := []
    sessionConfig := SessionConfig.default
    userActions := []
    actionNames := combineUserWithDefaultActions [] ++ []
    storeEntitiesAsSlots := true }

/-- A fallback policy fully confident in the default fallback action. -/
def fallbackPolicyEx : Policy :=
  ⟨"FallbackPolicy", 1, fun _ _ => [0, 0, 1, 0], true, "action_default_fallback"⟩

/-- A tracker that just rejected the default fallback action after the
bot listened to the user (the form-rejection re-prediction scenario). -/
def trackerRejEx : Tracker :=
  ⟨[.actionExecutionRejected "action_default_fallback"], some "action_listen"⟩

/-- An ML policy whose best guess is the back action, second guess another
action. -/
def kerasRejPolicyEx : Policy :=
  ⟨"KerasPolicy", 1, fun _ _ => [0, mkRat 1 2, 0, 1], false, ""⟩

/-- A tracker that just rejected the back action. -/
def trackerRej2Ex : Tracker :=
  ⟨[.actionExecutionRejected "action_back"], some "action_listen"⟩

/-- An ML policy that confidently predicts the listen action. -/
def kerasWinEx : Policy :=
  ⟨"KerasPolicy", 1, fun _ _ => [mkRat 9 10, 0, 0, mkRat 1 10], false, ""⟩

/-- A fallback policy with low raw confidence. -/
def fbEx : Policy :=
  ⟨"FallbackPolicy", 2, fun _ _ => [0, 0, mkRat 3 10, 0], true, "action_default_fallback"⟩

/-- A tracker whose latest action is listen, last event the listen
execution. -/
def trackerListenEx : Tracker :=
  ⟨[.actionExecuted "action_listen"], some "action_listen"⟩

/-- Two policies with identical maximal confidence and identical priority,
differing only in the action they favour. -/
def tieAEx : Policy :=
  ⟨"PolicyA", 1, fun _ _ => [mkRat 1 2, 0, 0, 0], false, ""⟩

/-- See `tieAEx`: the tying later policy. -/
def tieBEx : Policy :=
  ⟨"PolicyB", 1, fun _ _ => [0, mkRat 1 2, 0, 0], false, ""⟩

/-- A tracker with no events. -/
def trackerEmptyEx : Tracker :=
  ⟨[], none⟩

/-- First concrete merge operand: a greeting domain with an utterance
template. -/
def aC4 : Domain :=
  { intentProperties := [("greet", ⟨.all, [], none⟩)]
    entities := ["city"]
    formNames := []
    slots := []
    templates := [("utter_greet", [⟨some "hi", none⟩])]
    sessionConfig := SessionConfig.default
    userActions := ["action_hello", "utter_greet"]
    actionNames := combineUserWithDefaultActions ["action_hello", "utter_greet"] ++ []
    storeEntitiesAsSlots := true }

/-- Second concrete merge operand: a farewell domain with a form. -/
def bC4 : Domain :=
  { intentProperties := [("bye", ⟨.all, [], none⟩)]
    entities := ["country"]
    formNames := ["order_form"]
    slots := []
    templates := []
    sessionConfig := SessionConfig.default
    userActions := ["action_bye"]
    actionNames := combineUserWithDefaultActions ["action_bye"] ++ ["order_form"]
    storeEntitiesAsSlots := true }

/-- The selection state reached by the C2 witness ensemble. -/
def stC2 : SelState :=
  ⟨some ([mkRat 9 10, 0, 0, mkRat 1 10], "policy_0_KerasPolicy"), mkRat 9 10, 1⟩

/-- C10: for every tracker and domain, an ensemble with an empty policy
list returns `(None, None)` from `probabilities_using_best_policy` and
raises no exception. -/
theorem spec_c10 (tracker : Tracker) (d : Domain) :
    probabilitiesUsingBestPolicy [] tracker d = .ok (none, none) :=
  rfl

/-- C8: for every evaluation store (hence after any sequence of
`add_to_store` and `merge_store` operations and any combination of empty
and nonempty sequences), `serialise` returns a targets list and a
predictions list of equal length, the shorter combined sequence padded with
the sentinel value `"None"`. -/
theorem spec_c8 (s : EvaluationStore) :
    ∃ padT padP,
      s.serialise = (s.serialiseTargets ++ List.replicate padT "None",
        s.serialisePredictions ++ List.replicate padP "None")
      ∧ s.serialise.1.length = s.serialise.2.length := by
  simp only [EvaluationStore.serialise, padListsToSize]
  by_cases h : s.serialisePredictions.length ≤ s.serialiseTargets.length
  · rw [if_pos h]
    exact ⟨0, s.serialiseTargets.length - s.serialisePredictions.length,
      by simp, by simp [Nat.add_sub_cancel' h]⟩
  · rw [if_neg h]
    refine ⟨s.serialisePredictions.length - s.serialiseTargets.length, 0,
      by simp, ?_⟩
    simp only [List.length_append, List.length_replicate]
    omega

/-- C7: `ensure_model_compatibility` raises the unsupported-model-version
error exactly when the recorded model version (defaulting to `"0.0.0"` when
absent) parses strictly below the version to check, and the error carries
both the found model version and the required minimum version. -/
theorem spec_c7 (metadataRasa : Option String) (versionToCheck : String) :
    ((∃ e, ensureModelCompatibility metadataRasa versionToCheck = .error e)
      ↔ versionLt (parseVersion (metadataRasa.getD "0.0.0"))
          (parseVersion versionToCheck) = true)
    ∧ (∀ e, ensureModelCompatibility metadataRasa versionToCheck = .error e →
        e.modelVersion = metadataRasa.getD "0.0.0"
          ∧ e.minimumVersion = versionToCheck) := by
  unfold ensureModelCompatibility
  by_cases h : versionLt (parseVersion (metadataRasa.getD "0.0.0"))
      (parseVersion versionToCheck) = true
  · rw [if_pos h]
    refine ⟨⟨fun _ => h, fun _ => ⟨_, rfl⟩⟩, fun e he => ?_⟩
    injection he with h1
    rw [← h1]
    exact ⟨rfl, rfl⟩
  · rw [if_neg h]
    refine ⟨⟨?_, ?_⟩, ?_⟩
    · rintro ⟨e, he⟩
      exact nomatch he
    · intro hv
      exact absurd hv h
    · intro e he
      exact nomatch he

/-- C7 witness: a model recorded at version 1.0.0 checked against minimum
2.0.0 is rejected with both versions in the error. -/
theorem spec_c7_witness :
    ensureModelCompatibility (some "1.0.0") "2.0.0" = .error ⟨"1.0.0", "2.0.0"⟩
    ∧ ((⟨"1.0.0", "2.0.0"⟩ : ModelVersionError).modelVersion = "1.0.0"
      ∧ (⟨"1.0.0", "2.0.0"⟩ : ModelVersionError).minimumVersion = "2.0.0") := by
  have h : ensureModelCompatibility (some "1.0.0") "2.0.0"
      = .error ⟨"1.0.0", "2.0.0"⟩ := rfl
  exact ⟨h, (spec_c7 (some "1.0.0") "2.0.0").2 ⟨"1.0.0", "2.0.0"⟩ h⟩

/-- C5: `compare_with_specification` returns `True` when the persisted
state list equals the live `input_states` as a set, and otherwise raises
the domain-specification-changed error naming exactly the removed states
(recorded but no longer live) and the added states (live but not
recorded). -/
theorem spec_c5 (d : Domain) (states : List String) :
    ((∀ s, s ∈ states ↔ s ∈ d.inputStates) →
      d.compareWithSpecification states = .ok true)
    ∧ (¬ (∀ s, s ∈ states ↔ s ∈ d.inputStates) →
      ∃ removed added,
        d.compareWithSpecification states
            = .error (.domainSpecChanged removed added)
        ∧ (∀ s, s ∈ removed ↔ s ∈ states ∧ s ∉ d.inputStates)
        ∧ (∀ s, s ∈ added ↔ s ∈ d.inputStates ∧ s ∉ states)) := by
  constructor
  · intro hiff
    have hc : (states.all (fun s => decide (s ∈ d.inputStates))
        && d.inputStates.all (fun s => decide (s ∈ states))) = true := by
      rw [Bool.and_eq_true, List.all_eq_true, List.all_eq_true]
      exact ⟨fun s hs => by simpa using (hiff s).mp hs,
        fun s hs => by simpa using (hiff s).mpr hs⟩
    simp [Domain.compareWithSpecification, hc]
  · intro hne
    cases hc : (states.all (fun s => decide (s ∈ d.inputStates))
        && d.inputStates.all (fun s => decide (s ∈ states))) with
    | true =>
      exfalso
      apply hne
      rw [Bool.and_eq_true, List.all_eq_true, List.all_eq_true] at hc
      intro s
      exact ⟨fun hs => by simpa using hc.1 s hs,
        fun hs => by simpa using hc.2 s hs⟩
    | false =>
      refine ⟨states.dedup.filter (fun s => decide (s ∉ d.inputStates)),
        d.inputStates.dedup.filter (fun s => decide (s ∉ states)), ?_, ?_, ?_⟩
      · simp [Domain.compareWithSpecification, hc]
      · intro s
        simp [List.mem_filter, List.mem_dedup]
      · intro s
        simp [List.mem_filter, List.mem_dedup]

/-- C5 witness: comparing a domain against its own state list succeeds. -/
theorem spec_c5_witness :
    domainEx.compareWithSpecification domainEx.inputStates = .ok true :=
  (spec_c5 domainEx domainEx.inputStates).1 (fun _ => Iff.rfl)

/-- C9: for every domain, `input_states` has exactly `num_states` entries,
and `index_of_state` returns an index in `[0, num_states)` for every state
in `input_states` and `None` for every other name. -/
theorem spec_c9 (d : Domain) (s : String) :
    d.inputStates.length = d.numStates
    ∧ (s ∈ d.inputStates → ∃ i, d.indexOfState s = some i ∧ i < d.numStates)
    ∧ (s ∉ d.inputStates → d.indexOfState s = none) := by
  refine ⟨rfl, ?_, ?_⟩
  · intro hs
    have hne : ((List.range d.inputStates.length).filter
        (fun i => decide (d.inputStates.get? i = some s))) ≠ [] := by
      obtain ⟨n, hget⟩ := List.mem_iff_get.mp hs
      have hsome : d.inputStates.get? (n : ℕ) = some s := by
        rw [List.get?_eq_get n.isLt]
        exact congrArg some hget
      intro hemp
      have hmem : (n : ℕ) ∈ (List.range d.inputStates.length).filter
          (fun i => decide (d.inputStates.get? i = some s)) := by
        rw [List.mem_filter]
        exact ⟨List.mem_range.mpr n.isLt, by rw [hsome]; exact decide_eq_true rfl⟩
      rw [hemp] at hmem
      exact absurd hmem (List.not_mem_nil _)
    obtain ⟨i, hi⟩ := Option.isSome_iff_exists.mp (List.getLast?_isSome.mpr hne)
    refine ⟨i, hi, ?_⟩
    have hmem : i ∈ (List.range d.inputStates.length).filter
        (fun i => decide (d.inputStates.get? i = some s)) :=
      List.mem_of_mem_getLast? hi
    have := (List.mem_filter.mp hmem).1
    exact List.mem_range.mp this
  · intro hs
    have hemp : ((List.range d.inputStates.length).filter
        (fun i => decide (d.inputStates.get? i = some s))) = [] := by
      rw [List.filter_eq_nil_iff]
      intro i _
      simp only [decide_eq_true_eq]
      intro hget
      exact hs (List.get?_mem hget)
    unfold Domain.indexOfState
    rw [hemp]
    rfl

/-- C9 witness: the concrete domain's first intent state is indexed within
range. -/
theorem spec_c9_witness :
    ("intent_greet" ∈ domainEx.inputStates)
    ∧ (∃ i, domainEx.indexOfState "intent_greet" = some i
        ∧ i < domainEx.numStates) :=
  ⟨by decide, (spec_c9 domainEx "intent_greet").2.1 (by decide)⟩

/-- Unfolding equation for `collectIntentGo` on a cons cell, expressed via
`IntentDecl.name`. -/
theorem collectIntentGo_cons (d : IntentDecl) (ds : List IntentDecl)
    (acc : List (String × NProps)) :
    collectIntentGo (d :: ds) acc =
      if d.name ∈ keysOf acc then
        .error (.invalidDomain
          ("Intents are not unique! Found two intents with name '" ++ d.name
            ++ "'. Either rename or remove one of them."))
      else
        collectIntentGo ds (acc ++
          [(d.name,
            match d with
            | .nameOnly _ => (⟨.all, [], none⟩ : NProps)
            | .withProps _ r => normalizeRaw r)]) := by
  cases d <;> rfl

/-- `collect_intent_properties` succeeds whenever the declared intent names
are distinct, regardless of the properties' contents. -/
theorem collectIntentGo_ok (ds : List IntentDecl) :
    ∀ acc : List (String × NProps),
      (∀ x ∈ ds, x.name ∉ keysOf acc) → (ds.map IntentDecl.name).Nodup →
      ∃ ps, collectIntentGo ds acc = .ok ps := by
  induction ds with
  | nil => exact fun acc _ _ => ⟨acc, rfl⟩
  | cons d ds ih =>
    intro acc hacc hnodup
    rw [List.map_cons, List.nodup_cons] at hnodup
    have hdn : d.name ∉ keysOf acc := hacc d (List.mem_cons_self d ds)
    rw [collectIntentGo_cons, if_neg hdn]
    apply ih
    · intro x hx
      rw [keysOf, List.map_append, List.mem_append]
      rintro (hmem | hmem)
      · exact hacc x (List.mem_cons_of_mem d hx) hmem
      · have hx1 : x.name = d.name := by
          simpa [keysOf] using hmem
        exact hnodup.1 (hx1 ▸ List.mem_map_of_mem IntentDecl.name hx)
    · exact hnodup.2

/-- C6: an intent whose `use_entities` list and `ignore_entities` list
overlap does not block domain construction (only distinct intent names
matter), but featurization for a message with that intent emits the
ambiguity warning and exclusion wins: an entity in the intersection is
never among the featurized entities. -/
theorem spec_c6 (d : Domain) (name : String) (c : NProps) (L : List String)
    (e : String) (msg : UserMessage) (decls : List IntentDecl)
    (hlook : d.intentProperties.lookup name = some c)
    (huse : c.useEntities = .lst L)
    (heL : e ∈ L) (heI : e ∈ c.ignoreEntities)
    (hmsg : msg.intentName = some name) :
    (d.getFeaturizedEntities msg).2 = true
    ∧ e ∉ (d.getFeaturizedEntities msg).1
    ∧ ((decls.map IntentDecl.name).Nodup →
        ∃ ps, collectIntentProperties decls = .ok ps) := by
  have hcfg : d.intentConfig msg.intentName = some c := by
    rw [hmsg]
    exact hlook
  refine ⟨?_, ?_, ?_⟩
  · show (Domain.getFeaturizedEntities d msg).2 = true
    simp only [Domain.getFeaturizedEntities, hcfg, huse]
    have hmem : e ∈ L.dedup.filter
        (fun x => decide (x ∈ c.ignoreEntities.dedup)) := by
      rw [List.mem_filter]
      exact ⟨List.mem_dedup.mpr heL,
        decide_eq_true (List.mem_dedup.mpr heI)⟩
    rw [Bool.and_eq_true]
    refine ⟨rfl, ?_⟩
    rw [Bool.not_eq_eq_eq_not, Bool.not_true, List.isEmpty_eq_false]
    exact List.ne_nil_of_mem hmem
  · show e ∉ (Domain.getFeaturizedEntities d msg).1
    simp only [Domain.getFeaturizedEntities, hcfg, huse]
    intro hmem
    rw [List.mem_filter, decide_eq_true_eq] at hmem
    have hw := hmem.2
    rw [List.mem_filter, decide_eq_true_eq] at hw
    exact hw.2 (List.mem_dedup.mpr heI)
  · intro hnd
    exact collectIntentGo_ok decls []
      (fun x _ hx => absurd hx (List.not_mem_nil x.name)) hnd

/-- C6 witness: the `order` intent both includes and ignores `drink`; the
warning fires, `drink` is not featurized, and constructing the intent
properties succeeds. -/
theorem spec_c6_witness :
    (domainC6Ex.intentProperties.lookup "order" = some propsC6Ex
      ∧ propsC6Ex.useEntities = .lst ["food", "drink"]
      ∧ "drink" ∈ ["food", "drink"]
      ∧ "drink" ∈ propsC6Ex.ignoreEntities
      ∧ msgC6Ex.intentName = some "order")
    ∧ ((domainC6Ex.getFeaturizedEntities msgC6Ex).2 = true
      ∧ "drink" ∉ (domainC6Ex.getFeaturizedEntities msgC6Ex).1
      ∧ ((([IntentDecl.withProps "order" (rawOfProps propsC6Ex)]).map
            IntentDecl.name).Nodup →
          ∃ ps, collectIntentProperties
            [IntentDecl.withProps "order" (rawOfProps propsC6Ex)] = .ok ps)) :=
  ⟨⟨rfl, rfl, by decide, by decide, rfl⟩,
    spec_c6 domainC6Ex "order" propsC6Ex ["food", "drink"] "drink" msgC6Ex
      [IntentDecl.withProps "order" (rawOfProps propsC6Ex)]
      rfl rfl (by decide) (by decide) rfl⟩

/-- C1 counterexample: with the default fallback action just rejected and
the tracker in the listen-after-listen situation, a confident fallback
policy triggers the fallback override, and the returned distribution puts
probability 1 — not 0 — on the rejected action's index. -/
theorem spec_c1_counterexample :
    trackerRejEx.events.getLast?
        = some (.actionExecutionRejected "action_default_fallback")
    ∧ domainEnsEx.indexForAction "action_default_fallback" = .ok 2
    ∧ probabilitiesUsingBestPolicy [fallbackPolicyEx] trackerRejEx domainEnsEx
        = .ok (some [0, 0, 1, 0], some "policy_0_FallbackPolicy")
    ∧ ¬ (([0, 0, 1, 0] : List ℚ).get? 2 = some 0) :=
  ⟨rfl, rfl, rfl, by decide⟩

/-- The arbitration loop's invariant under a rejected last event: any
recorded best distribution has probability 0 at the rejected action's
index. -/
theorem selectGo_rejected_zero (t : Tracker) (d : Domain) (x : String)
    (ix : ℕ)
    (hev : t.events.getLast? = some (.actionExecutionRejected x))
    (hix : d.indexForAction x = .ok ix) :
    ∀ (ps : List Policy) (i : ℕ) (st st' : SelState),
      (∀ r n, st.best = some (r, n) → r.get? ix = some 0) →
      selectGo t d i ps st = .ok st' →
      (∀ r n, st'.best = some (r, n) → r.get? ix = some 0) := by
  intro ps
  induction ps with
  | nil =>
    intro i st st' hinv hrun
    cases hrun
    exact hinv
  | cons p ps ih =>
    intro i st st' hinv hrun
    rw [selectGo, zeroRejected, hev] at hrun
    dsimp only at hrun
    rw [hix] at hrun
    dsimp only at hrun
    by_cases hlen : ix < (p.predict t d).length
    · rw [if_pos hlen] at hrun
      dsimp only at hrun
      cases hlm : listMaxE ((p.predict t d).set ix 0) with
      | error e =>
        rw [hlm] at hrun
        exact nomatch hrun
      | ok c =>
        rw [hlm] at hrun
        dsimp only at hrun
        by_cases hcond : tupleGt (c, p.priority)
            (st.maxConfidence, st.bestPolicyPriority)
        · rw [if_pos hcond] at hrun
          refine ih (i + 1) _ st' ?_ hrun
          intro r n hr
          injection hr with hr
          rw [← (Prod.mk.injEq _ _ _ _).mp hr |>.1]
          exact List.get?_set_eq_of_lt 0 hlen
        · rw [if_neg hcond] at hrun
          exact ih (i + 1) st st' hinv hrun
    · rw [if_neg hlen] at hrun
      exact nomatch hrun

/-- C1 as amended: with the last tracker event an execution rejection for
action X (present in the domain), every policy's distribution is zeroed at
X's index before comparison, so the returned distribution has probability 0
at X's index — unless the listen-after-listen fallback override replaced it
with the fallback policy's fallback distribution, which is not re-zeroed. -/
theorem spec_c1_amended (policies : List Policy) (t : Tracker) (d : Domain)
    (x : String) (ix : ℕ) (r : List ℚ) (nm : Option String)
    (hev : t.events.getLast? = some (.actionExecutionRejected x))
    (hix : d.indexForAction x = .ok ix)
    (hrun : probabilitiesUsingBestPolicy policies t d = .ok (some r, nm)) :
    r.get? ix = some 0
    ∨ ∃ i fp, (i, fp) ∈ policies.enum ∧ fp.isFallback = true
        ∧ fallbackScores fp d = .ok r ∧ nm = some (policyIdentifier i fp) := by
  unfold probabilitiesUsingBestPolicy at hrun
  cases hsel : selectBest policies t d with
  | error e =>
    rw [hsel] at hrun
    exact nomatch hrun
  | ok st =>
    rw [hsel] at hrun
    dsimp only at hrun
    have hstInv := selectGo_rejected_zero t d x ix hev hix policies 0
      initialSelState st (fun r n h => nomatch h) hsel
    cases hbest : st.best with
    | none =>
      rw [hbest] at hrun
      dsimp only at hrun
      simp only [Except.ok.injEq, Prod.mk.injEq] at hrun
      exact absurd hrun.1 (fun h => Option.noConfusion h)
    | some pair =>
      obtain ⟨r0, n0⟩ := pair
      rw [hbest] at hrun
      dsimp only at hrun
      have hr0 : r0.get? ix = some 0 := hstInv r0 n0 hbest
      cases hli : listIndexE r0 st.maxConfidence with
      | error e =>
        rw [hli] at hrun
        exact nomatch hrun
      | ok pi =>
        rw [hli] at hrun
        dsimp only at hrun
        cases hla : d.indexForAction actionListenName with
        | error e =>
          rw [hla] at hrun
          exact nomatch hrun
        | ok li =>
          rw [hla] at hrun
          dsimp only at hrun
          by_cases hc : (decide (pi = li)
              && t.latestActionName == some actionListenName
              && isNotMemoPolicy n0) = true
          · rw [if_pos hc] at hrun
            cases hfb : policies.enum.filter (fun ip => ip.2.isFallback) with
            | nil =>
              rw [hfb] at hrun
              dsimp only at hrun
              simp only [Except.ok.injEq, Prod.mk.injEq,
                Option.some.injEq] at hrun
              exact Or.inl (hrun.1 ▸ hr0)
            | cons ip rest =>
              obtain ⟨fi, fp⟩ := ip
              rw [hfb] at hrun
              dsimp only at hrun
              cases hfs : fallbackScores fp d with
              | error e =>
                rw [hfs] at hrun
                exact nomatch hrun
              | ok fr =>
                rw [hfs] at hrun
                dsimp only at hrun
                simp only [Except.ok.injEq, Prod.mk.injEq,
                  Option.some.injEq] at hrun
                have hmemF : (fi, fp) ∈ policies.enum.filter
                    (fun ip => ip.2.isFallback) := by
                  rw [hfb]
                  exact List.mem_cons_self _ _
                rw [List.mem_filter] at hmemF
                refine Or.inr ⟨fi, fp, hmemF.1, hmemF.2, ?_, ?_⟩
                · rw [hfs, hrun.1]
                · rw [← hrun.2]
          · rw [if_neg hc] at hrun
            simp only [Except.ok.injEq, Prod.mk.injEq,
              Option.some.injEq] at hrun
            exact Or.inl (hrun.1 ▸ hr0)

/-- C1 witness for the amended theorem: a rejected back action is zeroed in
the winning policy's distribution and the returned distribution has
probability 0 at its index. -/
theorem spec_c1_witness :
    (trackerRej2Ex.events.getLast?
        = some (.actionExecutionRejected "action_back")
      ∧ domainEnsEx.indexForAction "action_back" = .ok 3
      ∧ probabilitiesUsingBestPolicy [kerasRejPolicyEx] trackerRej2Ex domainEnsEx
          = .ok (some [0, mkRat 1 2, 0, 0], some "policy_0_KerasPolicy"))
    ∧ (([0, mkRat 1 2, 0, 0] : List ℚ).get? 3 = some 0
      ∨ ∃ i fp, (i, fp) ∈ ([kerasRejPolicyEx]).enum ∧ fp.isFallback = true
          ∧ fallbackScores fp domainEnsEx = .ok [0, mkRat 1 2, 0, 0]
          ∧ (some "policy_0_KerasPolicy" : Option String)
              = some (policyIdentifier i fp)) :=
  ⟨⟨rfl, rfl, rfl⟩,
    spec_c1_amended [kerasRejPolicyEx] trackerRej2Ex domainEnsEx "action_back"
      3 [0, mkRat 1 2, 0, 0] (some "policy_0_KerasPolicy") rfl rfl rfl⟩

/-- C2: when the selection phase produces a winner whose top probability
sits first at the listen action's index, the tracker's previous action was
listen, the winner is not a memoization-family policy, and a fallback
policy is present, `probabilities_using_best_policy` returns the fallback
policy's fixed fallback distribution and the fallback policy's identifier. -/
theorem spec_c2 (policies : List Policy) (t : Tracker) (d : Domain)
    (st : SelState) (r : List ℚ) (nm : String) (li fallbackIdx : ℕ)
    (fallbackPolicy : Policy) (rest : List (ℕ × Policy)) (fr : List ℚ)
    (hsel : selectBest policies t d = .ok st)
    (hbest : st.best = some (r, nm))
    (hidx : listIndexE r st.maxConfidence = .ok li)
    (hli : d.indexForAction actionListenName = .ok li)
    (hlatest : t.latestActionName = some actionListenName)
    (hmemo : isNotMemoPolicy nm = true)
    (hfb : policies.enum.filter (fun ip => ip.2.isFallback)
        = (fallbackIdx, fallbackPolicy) :: rest)
    (hfs : fallbackScores fallbackPolicy d = .ok fr) :
    probabilitiesUsingBestPolicy policies t d
      = .ok (some fr, some (policyIdentifier fallbackIdx fallbackPolicy)) := by
  unfold probabilitiesUsingBestPolicy
  rw [hsel]
  dsimp only
  rw [hbest]
  dsimp only
  rw [hidx]
  dsimp only
  rw [hli]
  dsimp only
  have hcond : (decide (li = li) && t.latestActionName == some actionListenName
      && isNotMemoPolicy nm) = true := by
    rw [hlatest, hmemo]
    simp
  rw [if_pos hcond, hfb]
  dsimp only
  rw [hfs]


/-- C2 witness: an ML policy confidently predicting listen right after
listen is overridden by the present fallback policy, whose identifier and
fixed distribution are returned. -/
theorem spec_c2_witness :
    (selectBest [kerasWinEx, fbEx] trackerListenEx domainEnsEx = .ok stC2
      ∧ stC2.best = some ([mkRat 9 10, 0, 0, mkRat 1 10], "policy_0_KerasPolicy")
      ∧ listIndexE [mkRat 9 10, 0, 0, mkRat 1 10] stC2.maxConfidence = .ok 0
      ∧ domainEnsEx.indexForAction actionListenName = .ok 0
      ∧ trackerListenEx.latestActionName = some actionListenName
      ∧ isNotMemoPolicy "policy_0_KerasPolicy" = true
      ∧ ([kerasWinEx, fbEx]).enum.filter (fun ip => ip.2.isFallback)
          = [(1, fbEx)]
      ∧ fallbackScores fbEx domainEnsEx = .ok [0, 0, 1, 0])
    ∧ probabilitiesUsingBestPolicy [kerasWinEx, fbEx] trackerListenEx domainEnsEx
        = .ok (some [0, 0, 1, 0], some (policyIdentifier 1 fbEx)) :=
  ⟨⟨rfl, rfl, rfl, rfl, rfl, rfl, rfl, rfl⟩,
    spec_c2 [kerasWinEx, fbEx] trackerListenEx domainEnsEx stC2
      [mkRat 9 10, 0, 0, mkRat 1 10] "policy_0_KerasPolicy" 0 1 fbEx [] [0, 0, 1, 0]
      rfl rfl rfl rfl rfl rfl rfl rfl⟩

/-- Elimination for a successful `policyKey`: the zeroed distribution and
its maximum exist and the key's components are that maximum and the
policy's priority. -/
theorem policyKey_ok_elim {t : Tracker} {d : Domain} {q : Policy}
    {k : ℚ × ℤ} (h : policyKey t d q = .ok k) :
    ∃ probs, zeroRejected t d (q.predict t d) = .ok probs
      ∧ listMaxE probs = .ok k.1 ∧ q.priority = k.2 := by
  unfold policyKey at h
  cases hz : zeroRejected t d (q.predict t d) with
  | error e =>
    rw [hz] at h
    exact nomatch h
  | ok probs =>
    rw [hz] at h
    dsimp only at h
    cases hm : listMaxE probs with
    | error e =>
      rw [hm] at h
      exact nomatch h
    | ok c =>
      rw [hm] at h
      dsimp only at h
      injection h with h
      subst h
      exact ⟨probs, rfl, hm, rfl⟩

/-- The arbitration loop distributes over list append, the running index
advancing by the length of the first part. -/
theorem selectGo_append (t : Tracker) (d : Domain) (l2 : List Policy) :
    ∀ (l1 : List Policy) (i : ℕ) (st : SelState),
      selectGo t d i (l1 ++ l2) st =
        match selectGo t d i l1 st with
        | .error e => .error e
        | .ok st1 => selectGo t d (i + l1.length) l2 st1 := by
  intro l1
  induction l1 with
  | nil =>
    intro i st
    simp [selectGo]
  | cons p l1 ih =>
    intro i st
    cases hz : zeroRejected t d (p.predict t d) with
    | error e =>
      simp only [List.cons_append, selectGo, hz]
    | ok probs =>
      cases hm : listMaxE probs with
      | error e =>
        simp only [List.cons_append, selectGo, hz, hm]
      | ok c =>
        simp only [List.cons_append, selectGo, hz, hm, List.length_cons]
        rw [List.append_eq, ih]
        have harith : i + 1 + l1.length = i + (l1.length + 1) := by omega
        rw [harith]

/-- Processing policies whose keys are all strictly below a bound keeps the
running best strictly below that bound. -/
theorem selectGo_reach (t : Tracker) (d : Domain) (k : ℚ × ℤ) :
    ∀ (pre : List Policy) (i : ℕ) (st : SelState),
      (∀ q ∈ pre, ∃ kq, policyKey t d q = .ok kq ∧ tupleGt k kq) →
      tupleGt k (st.maxConfidence, st.bestPolicyPriority) →
      ∃ st1, selectGo t d i pre st = .ok st1
        ∧ tupleGt k (st1.maxConfidence, st1.bestPolicyPriority) := by
  intro pre
  induction pre with
  | nil =>
    intro i st _ hgt
    exact ⟨st, rfl, hgt⟩
  | cons q qs ih =>
    intro i st hall hgt
    obtain ⟨kq, hkq, hklt⟩ := hall q (List.mem_cons_self q qs)
    obtain ⟨probs, hz, hm, hpr⟩ := policyKey_ok_elim hkq
    simp only [selectGo, hz, hm]
    by_cases hcond : tupleGt (kq.1, q.priority)
        (st.maxConfidence, st.bestPolicyPriority)
    · rw [if_pos hcond]
      refine ih (i + 1) _ (fun x hx => hall x (List.mem_cons_of_mem q hx)) ?_
      show tupleGt k (kq.1, q.priority)
      rw [hpr, Prod.mk.eta]
      exact hklt
    · rw [if_neg hcond]
      exact ih (i + 1) st (fun x hx => hall x (List.mem_cons_of_mem q hx)) hgt

/-- Processing policies whose keys do not strictly beat the running best
leaves the state unchanged. -/
theorem selectGo_frozen (t : Tracker) (d : Domain) :
    ∀ (post : List Policy) (i : ℕ) (st : SelState),
      (∀ q ∈ post, ∃ kq, policyKey t d q = .ok kq
        ∧ ¬ tupleGt kq (st.maxConfidence, st.bestPolicyPriority)) →
      selectGo t d i post st = .ok st := by
  intro post
  induction post with
  | nil =>
    intro i st _
    rfl
  | cons q qs ih =>
    intro i st hall
    obtain ⟨kq, hkq, hnot⟩ := hall q (List.mem_cons_self q qs)
    obtain ⟨probs, hz, hm, hpr⟩ := policyKey_ok_elim hkq
    simp only [selectGo, hz, hm]
    rw [if_neg (by rw [hpr, Prod.mk.eta]; exact hnot)]
    exact ih (i + 1) st (fun x hx => hall x (List.mem_cons_of_mem q hx))

/-- C3: the arbitration loop selects by the lexicographic key
`(max(distribution), priority)` with strictly-greater comparison in
configured order: a policy whose key strictly beats the initial state and
every earlier policy's key, and is not strictly beaten by any later
policy's key (ties included), wins with its zeroed distribution and its
`policy_<index>_<ClassName>` identifier. -/
theorem spec_c3 (pre post : List Policy) (p : Policy) (t : Tracker)
    (d : Domain) (k : ℚ × ℤ)
    (hk : policyKey t d p = .ok k)
    (hinit : tupleGt k (-1, -1))
    (hpre : ∀ q ∈ pre, ∃ kq, policyKey t d q = .ok kq ∧ tupleGt k kq)
    (hpost : ∀ q ∈ post, ∃ kq, policyKey t d q = .ok kq ∧ ¬ tupleGt kq k) :
    ∃ probs, zeroRejected t d (p.predict t d) = .ok probs
      ∧ selectBest (pre ++ p :: post) t d
          = .ok ⟨some (probs, policyIdentifier pre.length p), k.1, k.2⟩ := by
  obtain ⟨probs, hz, hm, hpr⟩ := policyKey_ok_elim hk
  refine ⟨probs, hz, ?_⟩
  unfold selectBest
  rw [selectGo_append]
  obtain ⟨st1, hst1, hgt1⟩ := selectGo_reach t d k pre 0 initialSelState hpre
    hinit
  rw [hst1]
  dsimp only
  simp only [selectGo, hz, hm]
  have hcond : tupleGt (k.1, p.priority)
      (st1.maxConfidence, st1.bestPolicyPriority) := by
    rw [hpr, Prod.mk.eta]
    exact hgt1
  rw [if_pos hcond, hpr, Nat.zero_add]
  exact selectGo_frozen t d post _ _
    (fun q hq => by
      obtain ⟨kq, h1, h2⟩ := hpost q hq
      exact ⟨kq, h1, by rwa [Prod.mk.eta]⟩)

/-- C3 witness: two policies tie on both maximal confidence and priority;
the earlier one in configured order wins. -/
theorem spec_c3_witness :
    (policyKey trackerEmptyEx domainEnsEx tieAEx = .ok (mkRat 1 2, 1)
      ∧ tupleGt (mkRat 1 2, 1) (-1, -1)
      ∧ policyKey trackerEmptyEx domainEnsEx tieBEx = .ok (mkRat 1 2, 1))
    ∧ (∃ probs, zeroRejected trackerEmptyEx domainEnsEx
          (tieAEx.predict trackerEmptyEx domainEnsEx) = .ok probs
        ∧ selectBest ([] ++ tieAEx :: [tieBEx]) trackerEmptyEx domainEnsEx
            = .ok ⟨some (probs,
                policyIdentifier (List.length ([] : List Policy)) tieAEx),
              (mkRat 1 2, (1 : ℤ)).1, (mkRat 1 2, (1 : ℤ)).2⟩) :=
  ⟨⟨rfl, by decide, rfl⟩,
    spec_c3 [] [tieBEx] tieAEx trackerEmptyEx domainEnsEx (mkRat 1 2, 1)
      rfl (by decide)
      (fun q hq => absurd hq (List.not_mem_nil q))
      (fun q hq => by
        rw [List.mem_singleton] at hq
        subst hq
        exact ⟨(mkRat 1 2, 1), rfl, by decide⟩)⟩

/-- Membership in an insertion step. -/
theorem mem_insertSorted (x y : String) :
    ∀ l : List String, y ∈ insertSorted x l ↔ y = x ∨ y ∈ l := by
  intro l
  induction l with
  | nil => simp [insertSorted]
  | cons a l ih =>
    rw [insertSorted]
    by_cases h : strLt a x
    · rw [if_pos h]
      simp only [List.mem_cons, ih]
      tauto
    · rw [if_neg h]
      simp only [List.mem_cons]

/-- Sorting preserves membership. -/
theorem mem_sortStr (y : String) : ∀ l : List String, y ∈ sortStr l ↔ y ∈ l := by
  intro l
  induction l with
  | nil => simp [sortStr]
  | cons a l ih =>
    show y ∈ insertSorted a (sortStr l) ↔ _
    rw [mem_insertSorted, ih, List.mem_cons]

/-- Sorted deduplication preserves membership. -/
theorem mem_sortedDedup (y : String) (l : List String) :
    y ∈ sortedDedup l ↔ y ∈ l := by
  rw [sortedDedup, mem_sortStr, List.mem_dedup]

/-- `merge_lists` behaves as set union on membership. -/
theorem mem_mergeLists (y : String) (l1 l2 : List String) :
    y ∈ mergeLists l1 l2 ↔ y ∈ l1 ∨ y ∈ l2 := by
  rw [mergeLists, mem_sortedDedup, List.mem_append]

/-- Keys of a key-preserving map. -/
theorem keysOf_map_fst_comm {α β : Type} (l : List (String × α))
    (g : String × α → β) :
    keysOf (l.map (fun kv => (kv.1, g kv))) = keysOf l := by
  unfold keysOf
  rw [List.map_map]
  rfl

/-- Keys of a Python dict update are the union of both key sets. -/
theorem mem_keysOf_dictUpdate {α : Type} (a b : List (String × α))
    (x : String) :
    x ∈ keysOf (dictUpdate a b) ↔ x ∈ keysOf a ∨ x ∈ keysOf b := by
  unfold dictUpdate
  rw [keysOf, List.map_append, List.mem_append, ← keysOf, ← keysOf,
    keysOf_map_fst_comm]
  constructor
  · rintro (h | h)
    · exact Or.inl h
    · right
      obtain ⟨kv, hkv, hx⟩ := List.mem_map.mp h
      exact hx ▸ List.mem_map_of_mem Prod.fst (List.mem_of_mem_filter hkv)
  · rintro (h | h)
    · exact Or.inl h
    · by_cases ha : x ∈ keysOf a
      · exact Or.inl ha
      · right
        obtain ⟨kv, hkv, hx⟩ := List.mem_map.mp h
        refine hx ▸ List.mem_map_of_mem Prod.fst (List.mem_filter.mpr ⟨hkv, ?_⟩)
        rw [decide_eq_true_eq, hx]
        exact ha

/-- Keys of `merge_dicts` are the union of both key sets, in either
direction. -/
theorem mem_keysOf_mergeDicts {α : Type} (d1 d2 : List (String × α))
    (o : Bool) (x : String) :
    x ∈ keysOf (mergeDicts d1 d2 o) ↔ x ∈ keysOf d1 ∨ x ∈ keysOf d2 := by
  cases o <;> simp only [mergeDicts, Bool.false_eq_true, if_false, if_true,
    mem_keysOf_dictUpdate] <;> tauto

/-- `collect_templates` preserves the key list. -/
theorem collectTemplates_keys :
    ∀ (l : List (String × Option (List TRaw))) (ts : List (String × List TVar)),
      collectTemplates l = .ok ts → keysOf ts = keysOf l := by
  intro l
  induction l with
  | nil =>
    intro ts h
    cases h
    rfl
  | cons kv l ih =>
    intro ts h
    obtain ⟨k, vo⟩ := kv
    cases vo with
    | none => exact nomatch h
    | some vars =>
      rw [collectTemplates] at h
      cases hv : validateVariations k vars with
      | error e =>
        rw [hv] at h
        exact nomatch h
      | ok vs =>
        rw [hv] at h
        dsimp only at h
        cases hrec : collectTemplates l with
        | error e =>
          rw [hrec] at h
          exact nomatch h
        | ok ts' =>
          rw [hrec] at h
          dsimp only at h
          injection h with h
          subst h
          show k :: keysOf ts' = k :: keysOf l
          rw [ih ts' hrec]

/-- `combine_with_templates` behaves as the union of the action list and
the template keys on membership. -/
theorem mem_combineWithTemplates (x : String) (acts : List String)
    (ts : List (String × List TVar)) :
    x ∈ combineWithTemplates acts ts ↔ x ∈ acts ∨ x ∈ keysOf ts := by
  unfold combineWithTemplates
  rw [List.mem_append]
  constructor
  · rintro (h | h)
    · exact Or.inl h
    · rw [List.mem_filter, mem_sortStr] at h
      exact Or.inr h.1
  · rintro (h | h)
    · exact Or.inl h
    · by_cases ha : x ∈ acts
      · exact Or.inl ha
      · refine Or.inr (List.mem_filter.mpr ⟨(mem_sortStr x _).mpr h, ?_⟩)
        rw [decide_eq_true_eq]
        exact ha

/-- The form-removal step only removes elements. -/
theorem removeFormsFromActions_subset :
    ∀ (fs acts : List String) (x : String),
      x ∈ removeFormsFromActions fs acts → x ∈ acts := by
  intro fs
  induction fs with
  | nil =>
    intro acts x h
    exact h
  | cons f fs ih =>
    intro acts x h
    rw [removeFormsFromActions, List.foldl_cons] at h
    have h2 := ih _ x h
    by_cases hf : f ∈ acts
    · rw [if_pos hf] at h2
      exact List.mem_of_mem_erase h2
    · rw [if_neg hf] at h2
      exact h2

/-- The form-removal step keeps every element that is not a removed form. -/
theorem mem_removeFormsFromActions :
    ∀ (fs acts : List String) (x : String),
      x ∉ fs → x ∈ acts → x ∈ removeFormsFromActions fs acts := by
  intro fs
  induction fs with
  | nil =>
    intro acts x _ h
    exact h
  | cons f fs ih =>
    intro acts x hnf hx
    have hne : x ≠ f := fun he => hnf (he ▸ List.mem_cons_self f fs)
    rw [removeFormsFromActions, List.foldl_cons]
    apply ih _ x (fun hm => hnf (List.mem_cons_of_mem f hm))
    by_cases hf : f ∈ acts
    · rw [if_pos hf]
      exact (List.mem_erase_of_ne hne).mpr hx
    · rw [if_neg hf]
      exact hx

/-- Membership in user actions persists through
`combine_user_with_default_actions`. -/
theorem mem_combineUserWithDefaultActions_of_mem {x : String}
    {ua : List String} (h : x ∈ ua) :
    x ∈ combineUserWithDefaultActions ua :=
  List.mem_append_right _ h

/-- A list with no duplicated items (per `get_duplicates`) has no
duplicates. -/
theorem nodup_of_getDuplicates_nil (l : List String)
    (h : getDuplicates l = []) : l.Nodup := by
  rw [List.nodup_iff_count_le_one]
  intro a
  by_contra hc
  push_neg at hc
  have ha : a ∈ l := by
    rw [← List.count_pos_iff_mem]
    omega
  have hmem : a ∈ getDuplicates l := by
    rw [getDuplicates, List.mem_filter]
    exact ⟨List.mem_dedup.mpr ha, decide_eq_true hc⟩
  rw [h] at hmem
  exact absurd hmem (List.not_mem_nil a)

/-- A domain passing the sanity check has distinct action names. -/
theorem checkDomainSanity_ok_nodup {d : Domain}
    (h : checkDomainSanity d = .ok ()) : d.actionNames.Nodup := by
  unfold checkDomainSanity at h
  dsimp only at h
  split at h
  · exact nomatch h
  · next hc =>
    push_neg at hc
    exact nodup_of_getDuplicates_nil _ hc.1

/-- Elimination for a successful `Domain.__init__`: the stored fields and
the passed sanity check. -/
theorem Domain.init_ok {intents : List IntentDecl} {entities : List String}
    {slots : List Slot} {templates : List (String × List TVar)}
    {actionNames formNames : List String} {store : Bool}
    {ses : SessionConfig} {M : Domain}
    (h : Domain.init intents entities slots templates actionNames formNames
      store ses = .ok M) :
    M.userActions = combineWithTemplates actionNames templates
    ∧ M.entities = entities
    ∧ M.formNames = formNames
    ∧ M.actionNames
        = combineUserWithDefaultActions
            (combineWithTemplates actionNames templates) ++ formNames
    ∧ checkDomainSanity M = .ok () := by
  unfold Domain.init at h
  split at h
  · exact nomatch h
  · next props hprops =>
    dsimp only at h
    split at h
    · exact nomatch h
    · next u heq =>
      cases u
      injection h with h
      subst h
      exact ⟨rfl, rfl, rfl, rfl, heq⟩

/-- Elimination for a successful `Domain.from_dict`: the validated
templates exist and the constructor call succeeded. -/
theorem Domain.fromDict_ok {data : DomainDict} {M : Domain}
    (h : Domain.fromDict data = .ok M) :
    ∃ ts, collectTemplates (data.responses.map
        (fun kv => (kv.1, some (kv.2.map TRaw.rawDict)))) = .ok ts
      ∧ Domain.init
          (data.intents.map (fun kv => IntentDecl.withProps kv.1 (rawOfProps kv.2)))
          data.entities (collectSlots data.slots) ts data.actions data.forms
          data.storeEntitiesAsSlots data.sessionConfig = .ok M := by
  unfold Domain.fromDict at h
  split at h
  · exact nomatch h
  · next ts heq => exact ⟨ts, heq, h⟩

/-- A successful non-override `Domain.merge` is `from_dict` of the combined
dict built from both domains' `as_dict` views. -/
theorem Domain.merge_ok_elim {A B M : Domain}
    (h : Domain.merge A (some B) false = .ok M) :
    Domain.fromDict
      { storeEntitiesAsSlots := A.storeEntitiesAsSlots
        sessionConfig := if A.sessionConfig = SessionConfig.default
          then B.sessionConfig else A.sessionConfig
        intents := mergeDicts A.intentProperties B.intentProperties false
        entities := mergeLists A.entities B.entities
        slots := mergeDicts (A.slots.map (fun s => (s.name, ⟨s.featureDim⟩)))
          (B.slots.map (fun s => (s.name, ⟨s.featureDim⟩))) false
        responses := mergeDicts A.templates B.templates false
        actions := mergeLists A.userActions
          (removeFormsFromActions A.formNames B.userActions)
        forms := mergeLists A.formNames B.formNames } = .ok M := by
  rw [← h]
  unfold Domain.merge Domain.asDict
  by_cases hses : A.sessionConfig = SessionConfig.default
  · simp [hses]
  · simp [hses]

/-- C4: when merging two domain fragments succeeds in both orders, the
merge is order-independent as sets on the actions, entities, and forms
fields. -/
theorem spec_c4 (A B M1 M2 : Domain)
    (h1 : Domain.merge A (some B) false = .ok M1)
    (h2 : Domain.merge B (some A) false = .ok M2) :
    (∀ x, x ∈ M1.userActions ↔ x ∈ M2.userActions)
    ∧ (∀ x, x ∈ M1.entities ↔ x ∈ M2.entities)
    ∧ (∀ x, x ∈ M1.formNames ↔ x ∈ M2.formNames) := by
  obtain ⟨t1, hct1, hinit1⟩ := Domain.fromDict_ok (Domain.merge_ok_elim h1)
  obtain ⟨t2, hct2, hinit2⟩ := Domain.fromDict_ok (Domain.merge_ok_elim h2)
  dsimp only at hct1 hinit1 hct2 hinit2
  obtain ⟨hua1, hent1, hforms1, hact1, hsan1⟩ := Domain.init_ok hinit1
  obtain ⟨hua2, hent2, hforms2, hact2, hsan2⟩ := Domain.init_ok hinit2
  have hkt1 : ∀ x, x ∈ keysOf t1 ↔
      x ∈ keysOf A.templates ∨ x ∈ keysOf B.templates := by
    intro x
    rw [collectTemplates_keys _ t1 hct1, keysOf_map_fst_comm]
    exact mem_keysOf_mergeDicts _ _ _ x
  have hkt2 : ∀ x, x ∈ keysOf t2 ↔
      x ∈ keysOf B.templates ∨ x ∈ keysOf A.templates := by
    intro x
    rw [collectTemplates_keys _ t2 hct2, keysOf_map_fst_comm]
    exact mem_keysOf_mergeDicts _ _ _ x
  have hm1 : ∀ x, x ∈ M1.userActions ↔
      (x ∈ A.userActions
        ∨ x ∈ removeFormsFromActions A.formNames B.userActions)
      ∨ (x ∈ keysOf A.templates ∨ x ∈ keysOf B.templates) := by
    intro x
    rw [hua1, mem_combineWithTemplates, mem_mergeLists, hkt1]
  have hm2 : ∀ x, x ∈ M2.userActions ↔
      (x ∈ B.userActions
        ∨ x ∈ removeFormsFromActions B.formNames A.userActions)
      ∨ (x ∈ keysOf B.templates ∨ x ∈ keysOf A.templates) := by
    intro x
    rw [hua2, mem_combineWithTemplates, mem_mergeLists, hkt2]
  have hf1 : ∀ x, x ∈ M1.formNames ↔ x ∈ A.formNames ∨ x ∈ B.formNames := by
    intro x
    rw [hforms1]
    exact mem_mergeLists x _ _
  have hf2 : ∀ x, x ∈ M2.formNames ↔ x ∈ B.formNames ∨ x ∈ A.formNames := by
    intro x
    rw [hforms2]
    exact mem_mergeLists x _ _
  have hnd1 : M1.actionNames.Nodup := checkDomainSanity_ok_nodup hsan1
  have hnd2 : M2.actionNames.Nodup := checkDomainSanity_ok_nodup hsan2
  have hdisj1 : ∀ x, x ∈ M1.userActions → x ∈ M1.formNames → False := by
    intro x hu hf
    rw [hact1, List.nodup_append] at hnd1
    rw [hua1] at hu
    rw [hforms1] at hf
    exact hnd1.2.2 (mem_combineUserWithDefaultActions_of_mem hu) hf
  have hdisj2 : ∀ x, x ∈ M2.userActions → x ∈ M2.formNames → False := by
    intro x hu hf
    rw [hact2, List.nodup_append] at hnd2
    rw [hua2] at hu
    rw [hforms2] at hf
    exact hnd2.2.2 (mem_combineUserWithDefaultActions_of_mem hu) hf
  have hAB : ∀ x, x ∈ A.userActions → x ∈ B.formNames → False := by
    intro x ha hb
    exact hdisj1 x ((hm1 x).mpr (Or.inl (Or.inl ha)))
      ((hf1 x).mpr (Or.inr hb))
  have hBA : ∀ x, x ∈ B.userActions → x ∈ A.formNames → False := by
    intro x hb ha
    exact hdisj2 x ((hm2 x).mpr (Or.inl (Or.inl hb)))
      ((hf2 x).mpr (Or.inr ha))
  have hrm1 : ∀ x, x ∈ removeFormsFromActions A.formNames B.userActions
      ↔ x ∈ B.userActions := by
    intro x
    constructor
    · exact removeFormsFromActions_subset _ _ x
    · intro hx
      exact mem_removeFormsFromActions _ _ x (fun hf => hBA x hx hf) hx
  have hrm2 : ∀ x, x ∈ removeFormsFromActions B.formNames A.userActions
      ↔ x ∈ A.userActions := by
    intro x
    constructor
    · exact removeFormsFromActions_subset _ _ x
    · intro hx
      exact mem_removeFormsFromActions _ _ x (fun hf => hAB x hx hf) hx
  refine ⟨?_, ?_, ?_⟩
  · intro x
    rw [hm1 x, hm2 x, hrm1 x, hrm2 x]
    tauto
  · intro x
    rw [hent1, hent2, mem_mergeLists, mem_mergeLists]
    tauto
  · intro x
    rw [hf1 x, hf2 x]
    tauto

/-- C4 witness: the two concrete fragments merge successfully in both
orders with equal action, entity, and form sets. -/
theorem spec_c4_witness :
    ∃ M1 M2, Domain.merge aC4 (some bC4) false = .ok M1
      ∧ Domain.merge bC4 (some aC4) false = .ok M2
      ∧ (∀ x, x ∈ M1.userActions ↔ x ∈ M2.userActions)
      ∧ (∀ x, x ∈ M1.entities ↔ x ∈ M2.entities)
      ∧ (∀ x, x ∈ M1.formNames ↔ x ∈ M2.formNames) := by
  obtain ⟨M1, h1⟩ : ∃ M1, Domain.merge aC4 (some bC4) false = .ok M1 :=
    ⟨_, rfl⟩
  obtain ⟨M2, h2⟩ : ∃ M2, Domain.merge bC4 (some aC4) false = .ok M2 :=
    ⟨_, rfl⟩
  have hc := spec_c4 aC4 bC4 M1 M2 h1 h2
  exact ⟨M1, M2, h1, h2, hc.1, hc.2.1, hc.2.2⟩
